import Mathlib

/-!
Verification development for the local-translate-ai orchestration core.

Text is modelled as `List Char` (one entry per code point).  JavaScript
string operations (`replace` with string or global-regex patterns, `trim`,
`startsWith`, `slice`, …) are embedded as executable functions on
`List Char`.  Regex patterns used by the repository are all deterministic
(literal alternations, optional groups and maximal-munch character runs),
so each is embedded as a dedicated matcher returning the number of
characters consumed at the current position.
-/

namespace LocalTranslateAI

/-- Whitespace characters recognised by the model of JavaScript `trim` and
the regex class `\s` (space, tab, newline, carriage return, form feed,
vertical tab). -/
def isJsWs (c : Char) : Bool :=
  c = ' ' || c = '\t' || c = '\n' || c = '\r' || c = Char.ofNat 11 || c = Char.ofNat 12

/-- Model of JavaScript `String.prototype.trim`: drop leading and trailing
whitespace. -/
def trimList (s : List Char) : List Char :=
  ((s.dropWhile isJsWs).reverse.dropWhile isJsWs).reverse

/-- Length of the maximal prefix of `s` consisting of the character `c`. -/
def leadCount (c : Char) : List Char → Nat
  | [] => 0
  | x :: xs => if x = c then leadCount c xs + 1 else 0

/-- Length of the maximal whitespace prefix of `s`. -/
def leadWsCount : List Char → Nat
  | [] => 0
  | x :: xs => if isJsWs x then leadWsCount xs + 1 else 0

/-- ASCII lower-casing, used to model case-insensitive (`i` flag) regex
matching. -/
def asciiLower (c : Char) : Char :=
  if 'A' ≤ c && c ≤ 'Z' then Char.ofNat (c.toNat + 32) else c

/-- A matcher consumes a prefix of the input at the current scan position:
`some k` means the pattern matches here consuming `k` characters. -/
def Matcher : Type := List Char → Option Nat

/-- Case-insensitive literal matcher. -/
def litCI (pat : List Char) : Matcher := fun s =>
  let rec go : List Char → List Char → Bool
    | [], _ => true
    | _ :: _, [] => false
    | p :: ps, c :: cs => asciiLower c = asciiLower p && go ps cs
  if go pat s then some pat.length else none

/-- Case-sensitive literal matcher. -/
def lit (pat : List Char) : Matcher := fun s =>
  let rec go : List Char → List Char → Bool
    | [], _ => true
    | _ :: _, [] => false
    | p :: ps, c :: cs => c = p && go ps cs
  if go pat s then some pat.length else none

/-- Sequencing of matchers (regex concatenation). -/
def mseq (m1 m2 : Matcher) : Matcher := fun s =>
  match m1 s with
  | some k =>
    match m2 (s.drop k) with
    | some j => some (k + j)
    | none => none
  | none => none

/-- Ordered alternation of matchers (regex `|`). -/
def malt (m1 m2 : Matcher) : Matcher := fun s =>
  match m1 s with
  | some k => some k
  | none => m2 s

/-- Greedy optional matcher (regex `(?:…)?`). -/
def mopt (m : Matcher) : Matcher := fun s =>
  match m s with
  | some k => some k
  | none => some 0

/-- Matcher for `\s*`: consume the maximal whitespace run (possibly empty). -/
def wsStar : Matcher := fun s => some (leadWsCount s)

/-- Matcher for `\s+`: consume a non-empty maximal whitespace run. -/
def wsPlus : Matcher := fun s =>
  let n := leadWsCount s
  if n = 0 then none else some n

/-- Length of the maximal prefix of `s` made of `[A-Za-z_]` characters
(the class `[a-z_]` under the `i` flag). -/
def wordRun : List Char → Nat
  | [] => 0
  | c :: cs =>
    if ('a' ≤ c && c ≤ 'z') || ('A' ≤ c && c ≤ 'Z') || c = '_' then wordRun cs + 1
    else 0

/-- Matcher for `[a-z_]+` (with the `i` flag), maximal munch. -/
def wordRunPlus : Matcher := fun s =>
  let n := wordRun s
  if n = 0 then none else some n

/-- Fuel-driven scanner modelling a global regex replace with the empty
string: at each position, if the matcher matches (consuming at least one
character for the patterns used here), the match is dropped and scanning
resumes after it; otherwise the character is kept. -/
def removeAllGo (m : Matcher) : Nat → List Char → List Char
  | 0, s => s
  | _ + 1, [] => []
  | fuel + 1, c :: cs =>
    match m (c :: cs) with
    | some k => removeAllGo m fuel (cs.drop (k - 1))
    | none => c :: removeAllGo m fuel cs

/-- Model of `text.replace(pattern, '')` for a global regex `pattern`. -/
def removeAll (m : Matcher) (s : List Char) : List Char :=
  removeAllGo m s.length s

/-- Fuel-driven scanner modelling a global regex replace by a fixed
string `rep`. -/
def replaceAllGo (pat rep : List Char) : Nat → List Char → List Char
  | 0, s => s
  | _ + 1, [] => []
  | fuel + 1, c :: cs =>
    if pat.isPrefixOf (c :: cs) then
      rep ++ replaceAllGo pat rep fuel (cs.drop (pat.length - 1))
    else
      c :: replaceAllGo pat rep fuel cs

/-- Model of `text.replace(/pat/g, rep)` for a literal pattern `pat`. -/
def replaceAllStr (pat rep : List Char) (s : List Char) : List Char :=
  replaceAllGo pat rep s.length s

/-- Fuel-driven scanner replacing only the leftmost occurrence. -/
def replaceFirstGo (pat rep : List Char) : Nat → List Char → List Char
  | 0, s => s
  | _ + 1, [] => []
  | fuel + 1, c :: cs =>
    if pat.isPrefixOf (c :: cs) then
      rep ++ cs.drop (pat.length - 1)
    else
      c :: replaceFirstGo pat rep fuel cs

/-- Model of `text.replace('pat', rep)` with a *string* pattern, which in
JavaScript replaces only the first occurrence. -/
def replaceFirstStr (pat rep : List Char) (s : List Char) : List Char :=
  replaceFirstGo pat rep s.length s

/-! ## Sanitization pipeline — embedded from `src/utils/sanitize.ts` -/

/-- `/<\|im_start\|>(?:system|user|assistant)?/gi` -/
def mImStart : Matcher :=
  mseq (litCI "<|im_start|>".data)
    (mopt (malt (litCI "system".data) (malt (litCI "user".data) (litCI "assistant".data))))

/-- `/<\|im_end\|>/gi` -/
def mImEnd : Matcher := litCI "<|im_end|>".data

/-- `/\[INST\]/gi` -/
def mInst : Matcher := litCI "[INST]".data

/-- `/\[\/INST\]/gi` -/
def mInstClose : Matcher := litCI "[/INST]".data

/-- `/<<SYS>>/gi` -/
def mSysOpen : Matcher := litCI "<<SYS>>".data

/-- `/<\/SYS>>/gi` -/
def mSysClose : Matcher := litCI "</SYS>>".data

/-- `/<\/?s>/gi` (matches `<s>` and `</s>`) -/
def mSTag : Matcher := malt (litCI "</s>".data) (litCI "<s>".data)

/-- `/<\|endoftext\|>/gi` -/
def mEndOfText : Matcher := litCI "<|endoftext|>".data

/-- `/<\|end\|>/gi` -/
def mEnd : Matcher := litCI "<|end|>".data

/-- `/<\|eot_id\|>/gi` -/
def mEotId : Matcher := litCI "<|eot_id|>".data

/-- `/<\|start_header_id\|>(?:system|user|assistant)?<\|end_header_id\|>/gi` -/
def mHeader : Matcher :=
  mseq (litCI "<|start_header_id|>".data)
    (mseq (mopt (malt (litCI "system".data) (malt (litCI "user".data) (litCI "assistant".data))))
      (litCI "<|end_header_id|>".data))

/-- `/<\|begin_of_text\|>/gi` -/
def mBeginOfText : Matcher := litCI "<|begin_of_text|>".data

/-- `/<\|(?:system|user|assistant|human|bot)\|>/gi` -/
def mRoleMarker : Matcher :=
  mseq (litCI "<|".data)
    (mseq (malt (litCI "system".data) (malt (litCI "user".data)
        (malt (litCI "assistant".data) (malt (litCI "human".data) (litCI "bot".data)))))
      (litCI "|>".data))

/-- `/<\|[a-z_]+\|>/gi` — the run `[a-z_]+` is maximal-munch; since no
shorter run can be followed by `|`, maximal munch agrees with regex
backtracking. -/
def mGenericToken : Matcher :=
  mseq (litCI "<|".data) (mseq wordRunPlus (litCI "|>".data))

/-- The `CHAT_TEMPLATE_PATTERNS` array, in source order. -/
def chatTemplatePatterns : List Matcher :=
  [mImStart, mImEnd, mInst, mInstClose, mSysOpen, mSysClose, mSTag,
   mEndOfText, mEnd, mEotId, mHeader, mBeginOfText, mRoleMarker, mGenericToken]

/-- Case-insensitive character-list equality (for end-anchored patterns). -/
def eqCI : List Char → List Char → Bool
  | [], [] => true
  | _ :: _, [] => false
  | [], _ :: _ => false
  | a :: as, b :: bs => asciiLower a = asciiLower b && eqCI as bs

/-- Model of `text.replace(/pat$/i, '')`: remove a case-insensitive literal
suffix if present. -/
def removeSuffixCI (pat : List Char) (s : List Char) : List Char :=
  if pat.length ≤ s.length && eqCI (s.drop (s.length - pat.length)) pat then
    s.take (s.length - pat.length)
  else s

/-- The `INCOMPLETE_OUTPUT_PATTERNS` array (all end-anchored), in source
order. -/
def incompleteOutputPatterns : List (List Char) :=
  ["<|im_start".data, "<|im_".data, "<|".data, "[INST".data, "<<SYS".data]

/-- Model of `result.replace(/\n{3,}/g, '\n\n')`: every maximal run of three
or more newlines collapses to exactly two. -/
def collapseNewlinesGo : Nat → List Char → List Char
  | 0, s => s
  | _ + 1, [] => []
  | fuel + 1, c :: cs =>
    if c = '\n' then
      let n := leadCount '\n' cs
      if n + 1 ≥ 3 then '\n' :: '\n' :: collapseNewlinesGo fuel (cs.drop n)
      else c :: collapseNewlinesGo fuel cs
    else c :: collapseNewlinesGo fuel cs

def collapseNewlines (s : List Char) : List Char := collapseNewlinesGo s.length s

/-- Model of `result.replace(/ {2,}/g, ' ')`: every maximal run of two or
more spaces collapses to one. -/
def collapseSpacesGo : Nat → List Char → List Char
  | 0, s => s
  | _ + 1, [] => []
  | fuel + 1, c :: cs =>
    if c = ' ' then
      let n := leadCount ' ' cs
      if n + 1 ≥ 2 then ' ' :: collapseSpacesGo fuel (cs.drop n)
      else c :: collapseSpacesGo fuel cs
    else c :: collapseSpacesGo fuel cs

def collapseSpaces (s : List Char) : List Char := collapseSpacesGo s.length s

/-- `removeChatTemplateTokens` from `src/utils/sanitize.ts`: remove each
complete template pattern (global), then each incomplete trailing pattern,
then collapse newline and space runs, then trim. -/
def removeChatTemplateTokens (text : List Char) : List Char :=
  let afterComplete := chatTemplatePatterns.foldl (fun acc m => removeAll m acc) text
  let afterIncomplete := incompleteOutputPatterns.foldl (fun acc p => removeSuffixCI p acc) afterComplete
  trimList (collapseSpaces (collapseNewlines afterIncomplete))

/-- The apostrophe character (ASCII 39). -/
def squote : Char := Char.ofNat 39

/-- Helper for `removeWrappingQuotes`: the trimmed text starts with
`openQ` and ends with `closeQ` (JavaScript `startsWith`/`endsWith`). -/
def isWrappedBy (openQ closeQ : Char) (t : List Char) : Bool :=
  match t.head?, t.getLast? with
  | some a, some b => a = openQ && b = closeQ
  | _, _ => false

/-- `removeWrappingQuotes` from `src/utils/sanitize.ts`. -/
def removeWrappingQuotes (text : List Char) : List Char :=
  let trimmed := trimList text
  if isWrappedBy '"' '"' trimmed || isWrappedBy squote squote trimmed ||
      isWrappedBy '「' '」' trimmed || isWrappedBy '『' '』' trimmed then
    let inner := (trimmed.drop 1).dropLast
    match trimmed.head?, trimmed.getLast? with
    | some startQuote, some endQuote =>
      if !(inner.contains startQuote) && !(inner.contains endQuote) then inner
      else text
    | _, _ => text
  else text

/-- `/^(?:Here(?:'s| is) (?:the )?translation:?\s*)/i` -/
def pHereIs : Matcher :=
  mseq (litCI "here".data)
    (mseq (malt (litCI (squote :: "s".data)) (litCI " is".data))
      (mseq (litCI " ".data)
        (mseq (mopt (litCI "the ".data))
          (mseq (litCI "translation".data) (mseq (mopt (litCI ":".data)) wsStar)))))

/-- `/^(?:The )?translation(?:\s+is)?:?\s*/i` -/
def pTheTranslation : Matcher :=
  mseq (mopt (litCI "the ".data))
    (mseq (litCI "translation".data)
      (mseq (mopt (mseq wsPlus (litCI "is".data)))
        (mseq (mopt (litCI ":".data)) wsStar)))

/-- `/^(?:Translated text:?\s*)/i` -/
def pTranslatedText : Matcher :=
  mseq (litCI "translated text".data) (mseq (mopt (litCI ":".data)) wsStar)

/-- `/^(?:翻訳(?:結果)?(?:は)?[:：]?\s*)/` (case-sensitive) -/
def pHonyaku : Matcher :=
  mseq (lit "翻訳".data)
    (mseq (mopt (lit "結果".data))
      (mseq (mopt (lit "は".data))
        (mseq (mopt (malt (lit ":".data) (lit "：".data))) wsStar)))

/-- `/^(?:以下(?:が|は)翻訳(?:結果)?(?:です)?[:：]?\s*)/` (case-sensitive) -/
def pIkaHonyaku : Matcher :=
  mseq (lit "以下".data)
    (mseq (malt (lit "が".data) (lit "は".data))
      (mseq (lit "翻訳".data)
        (mseq (mopt (lit "結果".data))
          (mseq (mopt (lit "です".data))
            (mseq (mopt (malt (lit ":".data) (lit "：".data))) wsStar)))))

/-- The prefix patterns of `removeLLMPrefixes`, in source order. -/
def llmPrefixPatterns : List Matcher :=
  [pHereIs, pTheTranslation, pTranslatedText, pHonyaku, pIkaHonyaku]

/-- Model of `text.replace(/^pat/, '')`: strip the pattern at the start if
it matches there. -/
def stripAtStart (m : Matcher) (s : List Char) : List Char :=
  match m s with
  | some k => s.drop k
  | none => s

/-- `removeLLMPrefixes` from `src/utils/sanitize.ts`: strip each boilerplate
lead-in pattern at the start (in order), then trim. -/
def removeLLMPrefixes (text : List Char) : List Char :=
  trimList (llmPrefixPatterns.foldl (fun acc m => stripAtStart m acc) text)

/-- `sanitizeTranslationResult` from `src/utils/sanitize.ts`: template-token
removal, then wrapping-quote removal, then lead-in removal. -/
def sanitizeTranslationResult (text : List Char) : List Char :=
  removeLLMPrefixes (removeWrappingQuotes (removeChatTemplateTokens text))

/-- `sanitizeAccumulatedResult` from `src/utils/sanitize.ts`. -/
def sanitizeAccumulatedResult (accumulated : List Char) : List Char :=
  sanitizeTranslationResult accumulated

/-! ## Translation service — embedded from `translationService.ts` -/

/-- `RetryConfig` from `translationService.ts`. -/
structure RetryConfig where
  maxRetries : Nat
  retryInterval : Nat
deriving Repr, DecidableEq

/-- `DEFAULT_RETRY_CONFIG` from `translationService.ts`. -/
def DEFAULT_RETRY_CONFIG : RetryConfig := { maxRetries := 3, retryInterval := 1000 }

/-- `STREAMING_SAFETY_LIMITS` from `translationService.ts`. -/
structure StreamingSafetyLimits where
  maxOutputLengthMultiplier : Nat
  minMaxOutputLength : Nat
  maxConsecutiveRepeats : Nat
  minPatternLength : Nat
  contentTimeoutMs : Nat
deriving Repr

def STREAMING_SAFETY_LIMITS : StreamingSafetyLimits :=
  { maxOutputLengthMultiplier := 10
  , minMaxOutputLength := 1000
  , maxConsecutiveRepeats := 5
  , minPatternLength := 10
  , contentTimeoutMs := 30000 }

/-- `detectRepetitionLoop` from `translationService.ts`.  Method 1 compares
the most recent `maxConsecutiveRepeats` previously delivered chunks with
the incoming one; method 2 looks for a three-fold repeated pattern in the
tail of the accumulated text.  `slice(-n)` is `drop (length - n)` and
`slice(-a, -b)` is `(drop (length - a)).take (a - b)`. -/
def detectRepetitionLoop (newContent : List Char) (recentChunks : List (List Char))
    (accumulated : List Char) : Bool :=
  let method1 :=
    if recentChunks.length ≥ STREAMING_SAFETY_LIMITS.maxConsecutiveRepeats then
      let lastN := recentChunks.drop (recentChunks.length - STREAMING_SAFETY_LIMITS.maxConsecutiveRepeats)
      lastN.all (fun chunk => chunk == newContent) && newContent.length > 0
    else false
  let method2 :=
    if accumulated.length ≥ STREAMING_SAFETY_LIMITS.minPatternLength * 3 then
      let tail := accumulated.drop (accumulated.length - STREAMING_SAFETY_LIMITS.minPatternLength * 3)
      let maxPatternLen := tail.length / 3
      if STREAMING_SAFETY_LIMITS.minPatternLength ≤ maxPatternLen then
        (List.range (maxPatternLen + 1 - STREAMING_SAFETY_LIMITS.minPatternLength)).any (fun i =>
          let patternLen := STREAMING_SAFETY_LIMITS.minPatternLength + i
          let pattern := tail.drop (tail.length - patternLen)
          let prevPattern1 := (tail.drop (tail.length - patternLen * 2)).take patternLen
          let prevPattern2 := (tail.drop (tail.length - patternLen * 3)).take patternLen
          pattern == prevPattern1 && pattern == prevPattern2)
      else false
    else false
  method1 || method2

/-- Reasons the streaming chunk loop can stop early. -/
inductive StreamStop where
  | maxLength
  | repetition
  | contentTimeout
deriving Repr, DecidableEq

/-- Mutable state of the streaming chunk loop: the accumulated output and
the recent-chunk window (`lastChunks`). -/
structure StreamState where
  accumulated : List Char
  lastChunks : List (List Char)
deriving Repr, DecidableEq

/-- Result of a streaming call: the `onChunk(chunk, accumulated)` events in
order, the final accumulated text, and the early-stop reason if any. -/
structure StreamOutcome where
  events : List (List Char × List Char)
  final : List Char
  stop : Option StreamStop
deriving Repr, DecidableEq

/-- One iteration of the streaming content handler (`translateStreaming`
lines handling a parsed non-empty `delta.content`): length bound with
truncation, repetition detection, recent-chunk window update, accumulation
and `onChunk` emission.  Empty content is skipped (`if (content)`). -/
def streamStep (maxOutputLength : Nat) (st : StreamState) (content : List Char) :
    List (List Char × List Char) × StreamState × Option StreamStop :=
  if content.length = 0 then ([], st, none)
  else if st.accumulated.length + content.length > maxOutputLength then
    let remaining := maxOutputLength - st.accumulated.length
    if remaining > 0 then
      let truncated := content.take remaining
      let acc := st.accumulated ++ truncated
      ([(truncated, acc)], { st with accumulated := acc }, some .maxLength)
    else
      ([], st, some .maxLength)
  else if detectRepetitionLoop content st.lastChunks st.accumulated then
    ([], st, some .repetition)
  else
    let pushed := st.lastChunks ++ [content]
    let window := STREAMING_SAFETY_LIMITS.maxConsecutiveRepeats * 2
    let lastChunks := if pushed.length > window then pushed.drop (pushed.length - window) else pushed
    let acc := st.accumulated ++ content
    ([(content, acc)], { accumulated := acc, lastChunks := lastChunks }, none)

/-- The streaming read loop over a list of parsed chunk contents.
`timedOut i` is the oracle for the wall-clock content-timeout check
performed before reading the `i`-th content (the only part of the loop that
depends on real time). -/
def runStream (maxOutputLength : Nat) (timedOut : Nat → Bool) :
    Nat → StreamState → List (List Char) → StreamOutcome
  | _, st, [] => ⟨[], st.accumulated, none⟩
  | i, st, content :: rest =>
    if timedOut i then ⟨[], st.accumulated, some .contentTimeout⟩
    else
      match streamStep maxOutputLength st content with
      | (evs, st2, some reason) => ⟨evs, st2.accumulated, some reason⟩
      | (evs, st2, none) =>
        let out := runStream maxOutputLength timedOut (i + 1) st2 rest
        ⟨evs ++ out.events, out.final, out.stop⟩

/-- `maxOutputLength` as computed at the start of `translateStreaming`. -/
def maxOutputLengthFor (text : List Char) : Nat :=
  max (text.length * STREAMING_SAFETY_LIMITS.maxOutputLengthMultiplier)
    STREAMING_SAFETY_LIMITS.minMaxOutputLength

/-- The chunk-processing core of `translateStreaming`: the input text fixes
the output-length bound; `contents` are the parsed non-`[DONE]`
`delta.content` strings in arrival order. -/
def translateStreaming (text : List Char) (timedOut : Nat → Bool)
    (contents : List (List Char)) : StreamOutcome :=
  runStream (maxOutputLengthFor text) timedOut 0 ⟨[], []⟩ contents

/-- The service's `lastResult` after a streaming call: the accumulated text
passed through `sanitizeAccumulatedResult`. -/
def streamingLastResult (text : List Char) (timedOut : Nat → Bool)
    (contents : List (List Char)) : List Char :=
  sanitizeAccumulatedResult (translateStreaming text timedOut contents).final

/-- `buildPrompt` from `translationService.ts`: global replacement of the
three placeholders in the user prompt template, in source order. -/
def sourceLanguagePlaceholder : List Char :=
  ['\x7b', '\x7b'] ++ "source_language".data ++ ['\x7d', '\x7d']

def targetLanguagePlaceholder : List Char :=
  ['\x7b', '\x7b'] ++ "target_language".data ++ ['\x7d', '\x7d']

def inputTextPlaceholder : List Char :=
  ['\x7b', '\x7b'] ++ "input_text".data ++ ['\x7d', '\x7d']

def buildPrompt (userPromptTemplate text sourceLanguage targetLanguage : List Char) : List Char :=
  replaceAllStr inputTextPlaceholder text
    (replaceAllStr targetLanguagePlaceholder targetLanguage
      (replaceAllStr sourceLanguagePlaceholder sourceLanguage userPromptTemplate))

/-- The system message content built by `translate` and
`translateStreaming`: `profile.systemPrompt.replace('{{target_language}}',
targetLanguage)` — a *string*-pattern replace, so only the first occurrence
is substituted. -/
def systemMessageContent (systemPrompt targetLanguage : List Char) : List Char :=
  replaceFirstStr targetLanguagePlaceholder targetLanguage systemPrompt

/-! ## Retry — embedded from `executeWithRetry` / `fetchWithTimeout` -/

/-- A JavaScript `Error` as far as the retry logic inspects it: its `name`
and `message`. -/
structure JsError where
  name : String
  message : String
deriving Repr, DecidableEq

/-- `new Error('Request was cancelled')` thrown by the pre-attempt signal
check. -/
def cancelledError : JsError := { name := "Error", message := "Request was cancelled" }

/-- `new Error('Unknown error during retry')` thrown when the loop ends with
no recorded error (unreachable for `maxRetries ≥ 0`). -/
def unknownRetryError : JsError := { name := "Error", message := "Unknown error during retry" }

/-- Outcome of one transport attempt (`fn()`): a value or a thrown error. -/
inductive AttemptOutcome (α : Type) where
  | ok (value : α)
  | err (e : JsError)
deriving Repr, DecidableEq

/-- Observable events of `executeWithRetry`: a transport attempt (`fn()`
invocation, numbered from 0) or a `delay(retryInterval)` wait. -/
inductive RetryEvent where
  | attemptEv (i : Nat)
  | wait (ms : Nat)
deriving Repr, DecidableEq

def isAttemptEv : RetryEvent → Bool
  | .attemptEv _ => true
  | .wait _ => false

/-- The loop body of `executeWithRetry`.  `sigPre i` is the value of
`signal?.aborted` read at the top of iteration `i`; `sigPost i` is its
value read in the catch block of iteration `i`; `fn i` is the outcome of
the `i`-th transport attempt.  `fuel` counts the remaining loop iterations
(`maxRetries + 1 - attempt`). -/
def executeWithRetryGo (cfg : RetryConfig) (sigPre sigPost : Nat → Bool)
    (fn : Nat → AttemptOutcome α) (lastError : Option JsError) :
    Nat → Nat → List RetryEvent × Except JsError α
  | _, 0 => ([], .error (lastError.getD unknownRetryError))
  | attempt, fuel + 1 =>
    if sigPre attempt then ([], .error cancelledError)
    else
      match fn attempt with
      | .ok v => ([.attemptEv attempt], .ok v)
      | .err e =>
        if e.name = "AbortError" || sigPost attempt then
          ([.attemptEv attempt], .error e)
        else if attempt = cfg.maxRetries then
          ([.attemptEv attempt], .error e)
        else
          let rest := executeWithRetryGo cfg sigPre sigPost fn (some e) (attempt + 1) fuel
          (.attemptEv attempt :: .wait cfg.retryInterval :: rest.1, rest.2)

/-- `executeWithRetry` from `translationService.ts`, instrumented with its
trace of attempts and waits. -/
def executeWithRetry (cfg : RetryConfig) (sigPre sigPost : Nat → Bool)
    (fn : Nat → AttemptOutcome α) : List RetryEvent × Except JsError α :=
  executeWithRetryGo cfg sigPre sigPost fn none 0 (cfg.maxRetries + 1)

/-- The error fetch rejects with when `fetchWithTimeout`'s deadline fires:
the inner `AbortController` aborts the fetch, which rejects with a
`DOMException` whose `name` is `"AbortError"` (standard fetch behaviour in
the extension's runtime). -/
def timeoutAbortError : JsError := { name := "AbortError", message := "The operation was aborted" }

/-- `fetchWithTimeout` from `translationService.ts`, observed at the level
of one attempt: if the deadline fires before the response, the attempt
rejects with the abort-named error; otherwise the attempt yields the
underlying fetch outcome. -/
def fetchWithTimeout (deadlineFires : Bool) (fetchOutcome : AttemptOutcome α) : AttemptOutcome α :=
  if deadlineFires then .err timeoutAbortError else fetchOutcome

/-! ## Batch — embedded from `translateBatch` -/

/-- Outcome of `this.translate(...)` for one batch unit: the translated
text, or a thrown error (after the service's own retries). -/
inductive UnitOutcome where
  | ok (translated : List Char)
  | err
deriving Repr, DecidableEq

/-- Result of a `translateBatch` run: `results = none` models the thrown
`'Translation cancelled'` error; `progress` lists the
`onProgress(completed, total, result)` calls in order; `calls` lists the
unit indexes for which `this.translate` was invoked. -/
structure BatchOutcome where
  results : Option (List (List Char))
  progress : List (Nat × Nat × List Char)
  calls : List Nat
deriving Repr, DecidableEq

/-- The loop of `translateBatch`.  `tr i t` is the outcome of translating
unit `i` (text `t`); `aborted i` is `signal.aborted` as read at the top of
iteration `i`. -/
def translateBatchGo (tr : Nat → List Char → UnitOutcome) (aborted : Nat → Bool) (total : Nat) :
    Nat → List (List Char) → BatchOutcome
  | _, [] => ⟨some [], [], []⟩
  | i, text :: rest =>
    if aborted i then ⟨none, [], []⟩
    else if text.length = 0 || (trimList text).length = 0 then
      let out := translateBatchGo tr aborted total (i + 1) rest
      ⟨out.results.map (fun rs => [] :: rs), (i + 1, total, ([] : List Char)) :: out.progress, out.calls⟩
    else
      match tr i text with
      | .ok translated =>
        let out := translateBatchGo tr aborted total (i + 1) rest
        ⟨out.results.map (fun rs => translated :: rs),
         (i + 1, total, translated) :: out.progress, i :: out.calls⟩
      | .err =>
        let out := translateBatchGo tr aborted total (i + 1) rest
        ⟨out.results.map (fun rs => text :: rs),
         (i + 1, total, text) :: out.progress, i :: out.calls⟩

/-- `translateBatch` from `translationService.ts`. -/
def translateBatch (tr : Nat → List Char → UnitOutcome) (aborted : Nat → Bool)
    (texts : List (List Char)) : BatchOutcome :=
  translateBatchGo tr aborted texts.length 0 texts

/-! ## Background handler — embedded from `src/background/index.ts` -/

/-- `applyConversions` from `src/utils/currency`: applies the USD→JPY and
parameter-count rewrites when the respective options are enabled, else
returns the text unchanged.  The two rewriters are collaborator functions
passed as parameters. -/
def applyConversions (usdToJpyEnabled paramConversionEnabled : Bool)
    (convertUsdToJpy addParamDescriptions : List Char → List Char)
    (text : List Char) : List Char :=
  let result := if usdToJpyEnabled then convertUsdToJpy text else text
  if paramConversionEnabled then addParamDescriptions result else result

/-- The history-recording effect of `handleTranslateText`'s success path:
how many `HistoryEntry` records are handed to the persistence collaborator
for one successfully completed request.  `convert` is `applyConversions`
with the request's conversion options.  In the streaming branch the raw
result is `translationService.getLastResult()`; it is converted and
sanitized only when non-empty (`rawResult ? … : null`), and history is
recorded only inside `if (result)`, i.e. only when the converted, sanitized
text is also non-empty.  The non-streaming branch records history whenever
it is enabled. -/
def handleTranslateTextHistoryCount (stream streamingEnabled historyEnabled : Bool)
    (convert : List Char → List Char) (rawStreamResult : List Char) : Nat :=
  if stream && streamingEnabled then
    if rawStreamResult.length ≠ 0 then
      let result := sanitizeAccumulatedResult (convert rawStreamResult)
      if result.length ≠ 0 then
        if historyEnabled then 1 else 0
      else 0
    else 0
  else
    if historyEnabled then 1 else 0

/-! ## Spec-side descriptions and helper lemmas -/

/-- Expected retry trace prefix: `n` failed attempts starting at index
`start`, each followed by a `retryInterval` wait. -/
def preTraceFrom (interval start : Nat) : Nat → List RetryEvent
  | 0 => []
  | n + 1 => .attemptEv start :: .wait interval :: preTraceFrom interval (start + 1) n

/-- Number of transport attempts recorded in a retry trace. -/
def countAttempts (events : List RetryEvent) : Nat :=
  (events.filter isAttemptEv).length

theorem countAttempts_preTraceFrom (interval : Nat) :
    ∀ n start, countAttempts (preTraceFrom interval start n) = n := by
  intro n
  induction n with
  | zero => intro start; rfl
  | succ k ih =>
    intro start
    simp only [preTraceFrom, countAttempts, List.filter] at *
    simpa [isAttemptEv] using ih (start + 1)

theorem countAttempts_append (l1 l2 : List RetryEvent) :
    countAttempts (l1 ++ l2) = countAttempts l1 + countAttempts l2 := by
  simp [countAttempts, List.filter_append]

/-- Core lemma for permanently failing, never-cancelled runs: from attempt
`a` with the matching fuel, the loop performs the remaining attempts with a
wait after each failed non-final one and surfaces the last attempt's
error. -/
theorem executeWithRetryGo_allFail (cfg : RetryConfig) (sigPre sigPost : Nat → Bool)
    (fn : Nat → AttemptOutcome α) (e : Nat → JsError)
    (hpre : ∀ i, sigPre i = false) (hpost : ∀ i, sigPost i = false)
    (hfn : ∀ i, fn i = .err (e i)) (hname : ∀ i, (e i).name ≠ "AbortError") :
    ∀ f a le, a + f = cfg.maxRetries + 1 → a ≤ cfg.maxRetries →
      executeWithRetryGo cfg sigPre sigPost fn le a f =
        (preTraceFrom cfg.retryInterval a (cfg.maxRetries - a) ++ [.attemptEv cfg.maxRetries],
         .error (e cfg.maxRetries)) := by
  intro f
  induction f with
  | zero => intro a le hsum hle; omega
  | succ k ih =>
    intro a le hsum hle
    have hnm : decide ((e a).name = "AbortError") = false := decide_eq_false (hname a)
    rw [executeWithRetryGo]
    rw [hpre a, hfn a]
    simp only [Bool.false_eq_true, if_false]
    rw [hnm, hpost a]
    simp only [Bool.or_self, Bool.false_eq_true, if_false]
    by_cases ha : a = cfg.maxRetries
    · subst ha
      simp [preTraceFrom, Nat.sub_self]
    · have halt : a < cfg.maxRetries := lt_of_le_of_ne hle ha
      simp only [ha, if_false]
      rw [ih (a + 1) (some (e a)) (by omega) (by omega)]
      have hsub : cfg.maxRetries - a = (cfg.maxRetries - (a + 1)) + 1 := by omega
      rw [hsub]
      simp [preTraceFrom]

/-- Core lemma for runs that fail up to attempt `a`, where attempt `a`
fails with the abort-named error or with the signal observed aborted: the
error surfaces right after attempt `a`, with no wait and no further
attempt. -/
theorem executeWithRetryGo_abortAt (cfg : RetryConfig) (sigPre sigPost : Nat → Bool)
    (fn : Nat → AttemptOutcome α) (e : Nat → JsError) (a : Nat) (eAbort : JsError)
    (hpre : ∀ i, i ≤ a → sigPre i = false)
    (hpost : ∀ i, i < a → sigPost i = false)
    (hfn : ∀ i, i < a → fn i = .err (e i)) (hname : ∀ i, i < a → (e i).name ≠ "AbortError")
    (hfa : fn a = .err eAbort)
    (habort : eAbort.name = "AbortError" ∨ sigPost a = true)
    (hle : a ≤ cfg.maxRetries) :
    ∀ f s le, s + f = cfg.maxRetries + 1 → s ≤ a →
      executeWithRetryGo cfg sigPre sigPost fn le s f =
        (preTraceFrom cfg.retryInterval s (a - s) ++ [.attemptEv a], .error eAbort) := by
  intro f
  induction f with
  | zero => intro s le hsum hs; omega
  | succ k ih =>
    intro s le hsum hs
    rw [executeWithRetryGo]
    rw [hpre s hs]
    simp only [Bool.false_eq_true, if_false]
    by_cases hsa : s = a
    · subst hsa
      rw [hfa]
      have hcond : (decide (eAbort.name = "AbortError") || sigPost s) = true := by
        rcases habort with h | h
        · simp [h]
        · simp [h]
      simp only [hcond, if_true, Nat.sub_self, preTraceFrom, List.nil_append]
    · have hlt : s < a := lt_of_le_of_ne hs hsa
      rw [hfn s hlt]
      have hnm : decide ((e s).name = "AbortError") = false := decide_eq_false (hname s hlt)
      simp only [hnm, hpost s hlt, Bool.or_self, Bool.false_eq_true, if_false]
      have hne : ¬ s = cfg.maxRetries := by omega
      simp only [hne, if_false]
      rw [ih (s + 1) (some (e s)) (by omega) (by omega)]
      have hsub : a - s = (a - (s + 1)) + 1 := by omega
      rw [hsub]
      simp [preTraceFrom]

/-- Spec-side description of one batch unit's outcome: an empty or
whitespace-only unit resolves to the empty string; a unit whose translation
throws falls back to its original text; otherwise the translated text. -/
def unitResult (tr : Nat → List Char → UnitOutcome) (i : Nat) (text : List Char) : List Char :=
  if text.length = 0 || (trimList text).length = 0 then []
  else
    match tr i text with
    | .ok translated => translated
    | .err => text

/-- Spec-side description of the whole batch result list from unit `i`. -/
def batchSpecResults (tr : Nat → List Char → UnitOutcome) : Nat → List (List Char) → List (List Char)
  | _, [] => []
  | i, t :: ts => unitResult tr i t :: batchSpecResults tr (i + 1) ts

/-- Spec-side description of the `onProgress` events from unit `i`. -/
def batchSpecProgress (tr : Nat → List Char → UnitOutcome) (total : Nat) :
    Nat → List (List Char) → List (Nat × Nat × List Char)
  | _, [] => []
  | i, t :: ts => (i + 1, total, unitResult tr i t) :: batchSpecProgress tr total (i + 1) ts

/-- Spec-side description of which units reach the network
(`this.translate` calls): exactly the non-empty, non-whitespace ones. -/
def batchSpecCalls : Nat → List (List Char) → List Nat
  | _, [] => []
  | i, t :: ts =>
    if t.length = 0 || (trimList t).length = 0 then batchSpecCalls (i + 1) ts
    else i :: batchSpecCalls (i + 1) ts

theorem batchSpecResults_length (tr : Nat → List Char → UnitOutcome) :
    ∀ ts i, (batchSpecResults tr i ts).length = ts.length := by
  intro ts
  induction ts with
  | nil => intro i; rfl
  | cons t rest ih => intro i; simp [batchSpecResults, ih]

theorem batchSpecResults_getElem? (tr : Nat → List Char → UnitOutcome) :
    ∀ ts s i, (batchSpecResults tr s ts)[i]? = ts[i]?.map (fun t => unitResult tr (s + i) t) := by
  intro ts
  induction ts with
  | nil => intro s i; rfl
  | cons t rest ih =>
    intro s i
    cases i with
    | zero => simp [batchSpecResults]
    | succ j =>
      simp only [batchSpecResults, List.getElem?_cons_succ]
      rw [ih (s + 1) j]
      have : s + 1 + j = s + (j + 1) := by omega
      rw [this]

theorem batchSpecProgress_completed (tr : Nat → List Char → UnitOutcome) (total : Nat) :
    ∀ ts i, (batchSpecProgress tr total i ts).map (fun p => p.1) = List.range' (i + 1) ts.length := by
  intro ts
  induction ts with
  | nil => intro i; rfl
  | cons t rest ih =>
    intro i
    simp only [batchSpecProgress, List.map_cons, List.length_cons, List.range'_succ]
    rw [ih (i + 1)]

theorem batchSpecProgress_length (tr : Nat → List Char → UnitOutcome) (total : Nat) :
    ∀ ts i, (batchSpecProgress tr total i ts).length = ts.length := by
  intro ts
  induction ts with
  | nil => intro i; rfl
  | cons t rest ih => intro i; simp [batchSpecProgress, ih]

/-- A never-cancelled batch run equals its spec-side description. -/
theorem translateBatchGo_noAbort (tr : Nat → List Char → UnitOutcome) (aborted : Nat → Bool)
    (total : Nat) (h : ∀ i, aborted i = false) :
    ∀ ts i, translateBatchGo tr aborted total i ts =
      ⟨some (batchSpecResults tr i ts), batchSpecProgress tr total i ts, batchSpecCalls i ts⟩ := by
  intro ts
  induction ts with
  | nil => intro i; rfl
  | cons t rest ih =>
    intro i
    rw [translateBatchGo, h i]
    simp only [Bool.false_eq_true, if_false]
    by_cases hp : t = [] ∨ trimList t = []
    · have hempty : (t.length = 0 || (trimList t).length = 0) = true := by
        rcases hp with hh | hh <;> simp [hh]
      simp only [hempty, if_true, ih (i + 1)]
      rcases hp with hh | hh <;>
        simp [batchSpecResults, batchSpecProgress, batchSpecCalls, unitResult, hh]
    · have hempty : (t.length = 0 || (trimList t).length = 0) = false := by
        rcases not_or.mp hp with ⟨h1, h2⟩
        simp [h1, h2]
      simp only [hempty, Bool.false_eq_true, if_false]
      cases htr : tr i t with
      | ok translated =>
        simp only [ih (i + 1)]
        simp [batchSpecResults, batchSpecProgress, batchSpecCalls, unitResult, hempty, htr, hp]
      | err =>
        simp only [ih (i + 1)]
        simp [batchSpecResults, batchSpecProgress, batchSpecCalls, unitResult, hempty, htr, hp]

/-- A batch whose signal becomes aborted at unit `s + k` throws the
cancellation error there; the progress events and network calls are exactly
those of the first `k` remaining units. -/
theorem translateBatchGo_abortAt (tr : Nat → List Char → UnitOutcome) (aborted : Nat → Bool)
    (total : Nat) :
    ∀ k ts s, (∀ j, s ≤ j → j < s + k → aborted j = false) → aborted (s + k) = true →
      k < ts.length →
      translateBatchGo tr aborted total s ts =
        ⟨none, batchSpecProgress tr total s (ts.take k), batchSpecCalls s (ts.take k)⟩ := by
  intro k
  induction k with
  | zero =>
    intro ts s hfree habort hlen
    cases ts with
    | nil => simp at hlen
    | cons t rest =>
      rw [translateBatchGo]
      rw [show s + 0 = s by omega] at habort
      simp [habort, batchSpecProgress, batchSpecCalls]
  | succ k ih =>
    intro ts s hfree habort hlen
    cases ts with
    | nil => simp at hlen
    | cons t rest =>
      rw [translateBatchGo]
      rw [hfree s (by omega) (by omega)]
      simp only [Bool.false_eq_true, if_false]
      have hrec := ih rest (s + 1)
        (fun j h1 h2 => hfree j (by omega) (by omega))
        (by rw [show s + 1 + k = s + (k + 1) by omega]; exact habort)
        (by simpa using Nat.lt_of_succ_lt_succ hlen)
      by_cases hp : t = [] ∨ trimList t = []
      · have hempty : (t.length = 0 || (trimList t).length = 0) = true := by
          rcases hp with hh | hh <;> simp [hh]
        simp only [hempty, if_true, hrec]
        rcases hp with hh | hh <;>
          simp [batchSpecProgress, batchSpecCalls, unitResult, hh]
      · have hempty : (t.length = 0 || (trimList t).length = 0) = false := by
          rcases not_or.mp hp with ⟨h1, h2⟩
          simp [h1, h2]
        simp only [hempty, Bool.false_eq_true, if_false]
        cases htr : tr s t with
        | ok translated =>
          simp only [hrec]
          simp [batchSpecProgress, batchSpecCalls, unitResult, hempty, htr, hp]
        | err =>
          simp only [hrec]
          simp [batchSpecProgress, batchSpecCalls, unitResult, hempty, htr, hp]

theorem streamStep_skip (m : Nat) (st : StreamState) (content : List Char)
    (h : content.length = 0) : streamStep m st content = ([], st, none) := by
  rw [streamStep, if_pos h]

theorem streamStep_trunc (m : Nat) (st : StreamState) (content : List Char)
    (h1 : content.length ≠ 0) (h2 : st.accumulated.length + content.length > m)
    (h3 : m - st.accumulated.length > 0) :
    streamStep m st content =
      ([(content.take (m - st.accumulated.length),
         st.accumulated ++ content.take (m - st.accumulated.length))],
       { st with accumulated := st.accumulated ++ content.take (m - st.accumulated.length) },
       some .maxLength) := by
  rw [streamStep, if_neg h1, if_pos h2]
  simp only [h3, if_true]

theorem streamStep_alreadyFull (m : Nat) (st : StreamState) (content : List Char)
    (h1 : content.length ≠ 0) (h2 : st.accumulated.length + content.length > m)
    (h3 : ¬ m - st.accumulated.length > 0) :
    streamStep m st content = ([], st, some .maxLength) := by
  rw [streamStep, if_neg h1, if_pos h2]
  simp only [h3, if_false]

theorem streamStep_repetition (m : Nat) (st : StreamState) (content : List Char)
    (h1 : content.length ≠ 0) (h2 : ¬ st.accumulated.length + content.length > m)
    (h4 : detectRepetitionLoop content st.lastChunks st.accumulated = true) :
    streamStep m st content = ([], st, some .repetition) := by
  rw [streamStep, if_neg h1, if_neg h2, if_pos h4]

theorem streamStep_normal (m : Nat) (st : StreamState) (content : List Char)
    (h1 : content.length ≠ 0) (h2 : ¬ st.accumulated.length + content.length > m)
    (h4 : detectRepetitionLoop content st.lastChunks st.accumulated = false) :
    streamStep m st content =
      ([(content, st.accumulated ++ content)],
       { accumulated := st.accumulated ++ content
       , lastChunks :=
           if (st.lastChunks ++ [content]).length > STREAMING_SAFETY_LIMITS.maxConsecutiveRepeats * 2
           then (st.lastChunks ++ [content]).drop
             ((st.lastChunks ++ [content]).length - STREAMING_SAFETY_LIMITS.maxConsecutiveRepeats * 2)
           else st.lastChunks ++ [content] },
       none) := by
  rw [streamStep, if_neg h1, if_neg h2]
  simp only [h4, Bool.false_eq_true, if_false]

/-- The accumulated text stays within the bound and a max-length stop
leaves it at exactly the bound. -/
theorem runStream_final_bound (maxLen : Nat) (timedOut : Nat → Bool) :
    ∀ (cs : List (List Char)) (i : Nat) (st : StreamState),
      st.accumulated.length ≤ maxLen →
      (runStream maxLen timedOut i st cs).final.length ≤ maxLen ∧
      ((runStream maxLen timedOut i st cs).stop = some .maxLength →
        (runStream maxLen timedOut i st cs).final.length = maxLen) := by
  intro cs
  induction cs with
  | nil =>
    intro i st hst
    exact ⟨hst, by simp [runStream]⟩
  | cons content rest ih =>
    intro i st hst
    rw [runStream]
    by_cases hTO : timedOut i = true
    · rw [if_pos hTO]
      exact ⟨hst, by simp⟩
    · rw [if_neg hTO]
      by_cases h1 : content.length = 0
      · rw [streamStep_skip maxLen st content h1]
        exact ih (i + 1) st hst
      · by_cases h2 : st.accumulated.length + content.length > maxLen
        · by_cases h3 : maxLen - st.accumulated.length > 0
          · rw [streamStep_trunc maxLen st content h1 h2 h3]
            have hlen : (st.accumulated ++ content.take (maxLen - st.accumulated.length)).length
                = maxLen := by
              simp only [List.length_append, List.length_take]
              omega
            exact ⟨le_of_eq hlen, fun _ => hlen⟩
          · rw [streamStep_alreadyFull maxLen st content h1 h2 h3]
            have hfull : st.accumulated.length = maxLen := by omega
            exact ⟨hst, fun _ => hfull⟩
        · by_cases h4 : detectRepetitionLoop content st.lastChunks st.accumulated = true
          · rw [streamStep_repetition maxLen st content h1 h2 h4]
            exact ⟨hst, by simp⟩
          · rw [streamStep_normal maxLen st content h1 h2 (by simpa using h4)]
            refine ih (i + 1) _ ?_
            simp only [List.length_append]
            omega

/-- Every `onChunk` event carries an accumulated text within the bound. -/
theorem runStream_events_bound (maxLen : Nat) (timedOut : Nat → Bool) :
    ∀ (cs : List (List Char)) (i : Nat) (st : StreamState),
      st.accumulated.length ≤ maxLen →
      ∀ ev ∈ (runStream maxLen timedOut i st cs).events, ev.2.length ≤ maxLen := by
  intro cs
  induction cs with
  | nil =>
    intro i st hst ev hev
    simp [runStream] at hev
  | cons content rest ih =>
    intro i st hst ev hev
    rw [runStream] at hev
    by_cases hTO : timedOut i = true
    · rw [if_pos hTO] at hev
      simp at hev
    · rw [if_neg hTO] at hev
      by_cases h1 : content.length = 0
      · rw [streamStep_skip maxLen st content h1] at hev
        exact ih (i + 1) st hst ev (by simpa using hev)
      · by_cases h2 : st.accumulated.length + content.length > maxLen
        · by_cases h3 : maxLen - st.accumulated.length > 0
          · rw [streamStep_trunc maxLen st content h1 h2 h3] at hev
            have hlen : (st.accumulated ++ content.take (maxLen - st.accumulated.length)).length
                = maxLen := by
              simp only [List.length_append, List.length_take]
              omega
            simp only [List.mem_singleton] at hev
            subst hev
            exact le_of_eq hlen
          · rw [streamStep_alreadyFull maxLen st content h1 h2 h3] at hev
            simp at hev
        · by_cases h4 : detectRepetitionLoop content st.lastChunks st.accumulated = true
          · rw [streamStep_repetition maxLen st content h1 h2 h4] at hev
            simp at hev
          · rw [streamStep_normal maxLen st content h1 h2 (by simpa using h4)] at hev
            have hacc : (st.accumulated ++ content).length ≤ maxLen := by
              simp only [List.length_append]
              omega
            simp only [List.singleton_append, List.mem_cons] at hev
            rcases hev with hev | hev
            · subst hev; exact hacc
            · exact ih (i + 1) _ hacc ev hev

/-- If the loop emitted no event, the final text is the starting state's
accumulated text. -/
theorem runStream_events_nil (maxLen : Nat) (timedOut : Nat → Bool) :
    ∀ (cs : List (List Char)) (i : Nat) (st : StreamState),
      (runStream maxLen timedOut i st cs).events = [] →
      (runStream maxLen timedOut i st cs).final = st.accumulated := by
  intro cs
  induction cs with
  | nil => intro i st _; rfl
  | cons content rest ih =>
    intro i st hnil
    rw [runStream] at hnil ⊢
    by_cases hTO : timedOut i = true
    · rw [if_pos hTO]
    · rw [if_neg hTO] at hnil ⊢
      by_cases h1 : content.length = 0
      · rw [streamStep_skip maxLen st content h1] at hnil ⊢
        exact ih (i + 1) st (by simpa using hnil)
      · by_cases h2 : st.accumulated.length + content.length > maxLen
        · by_cases h3 : maxLen - st.accumulated.length > 0
          · rw [streamStep_trunc maxLen st content h1 h2 h3] at hnil
            simp at hnil
          · rw [streamStep_alreadyFull maxLen st content h1 h2 h3]
        · by_cases h4 : detectRepetitionLoop content st.lastChunks st.accumulated = true
          · rw [streamStep_repetition maxLen st content h1 h2 h4]
          · rw [streamStep_normal maxLen st content h1 h2 (by simpa using h4)] at hnil
            simp at hnil

/-- The final text is the accumulated value carried by the last emitted
event. -/
theorem runStream_getLast (maxLen : Nat) (timedOut : Nat → Bool) :
    ∀ (cs : List (List Char)) (i : Nat) (st : StreamState) (ev : List Char × List Char),
      (runStream maxLen timedOut i st cs).events.getLast? = some ev →
      ev.2 = (runStream maxLen timedOut i st cs).final := by
  intro cs
  induction cs with
  | nil =>
    intro i st ev hev
    simp [runStream] at hev
  | cons content rest ih =>
    intro i st ev hev
    rw [runStream] at hev ⊢
    by_cases hTO : timedOut i = true
    · rw [if_pos hTO] at hev
      simp at hev
    · rw [if_neg hTO] at hev ⊢
      by_cases h1 : content.length = 0
      · rw [streamStep_skip maxLen st content h1] at hev ⊢
        exact ih (i + 1) st ev (by simpa using hev)
      · by_cases h2 : st.accumulated.length + content.length > maxLen
        · by_cases h3 : maxLen - st.accumulated.length > 0
          · rw [streamStep_trunc maxLen st content h1 h2 h3] at hev ⊢
            simp only [List.getLast?_singleton, Option.some.injEq] at hev
            subst hev
            rfl
          · rw [streamStep_alreadyFull maxLen st content h1 h2 h3] at hev
            simp at hev
        · by_cases h4 : detectRepetitionLoop content st.lastChunks st.accumulated = true
          · rw [streamStep_repetition maxLen st content h1 h2 h4] at hev
            simp at hev
          · rw [streamStep_normal maxLen st content h1 h2 (by simpa using h4)] at hev ⊢
            simp only [List.singleton_append] at hev ⊢
            cases hrec : (runStream maxLen timedOut (i + 1)
                { accumulated := st.accumulated ++ content
                , lastChunks :=
                    if (st.lastChunks ++ [content]).length > STREAMING_SAFETY_LIMITS.maxConsecutiveRepeats * 2
                    then (st.lastChunks ++ [content]).drop
                      ((st.lastChunks ++ [content]).length - STREAMING_SAFETY_LIMITS.maxConsecutiveRepeats * 2)
                    else st.lastChunks ++ [content] } rest).events with
            | nil =>
              rw [hrec] at hev
              simp only [List.getLast?_singleton, Option.some.injEq] at hev
              subst hev
              exact (runStream_events_nil maxLen timedOut rest (i + 1) _ hrec).symm
            | cons e0 es =>
              rw [hrec] at hev
              rw [List.getLast?_cons_cons] at hev
              have := ih (i + 1) _ ev (by rw [hrec]; exact hev)
              exact this

/-- No occurrence of `pat` starts anywhere in `s`. -/
def noOccur (pat : List Char) : List Char → Bool
  | [] => true
  | c :: cs => !(pat.isPrefixOf (c :: cs)) && noOccur pat cs

/-- No occurrence of `pat` starts within the first `A.length` positions of
`A ++ rest` (matches may straddle the boundary, so the continuation is
part of the condition). -/
def noMatchIn (pat : List Char) : List Char → List Char → Bool
  | [], _ => true
  | a :: as, rest => !(pat.isPrefixOf (a :: (as ++ rest))) && noMatchIn pat as rest

theorem isPrefixOf_self_append (p b : List Char) : p.isPrefixOf (p ++ b) = true := by
  induction p with
  | nil => cases b with
    | nil => rfl
    | cons x xs => rfl
  | cons q qt ih => simp [List.isPrefixOf, ih]

theorem replaceAllGo_fuelIrrel (pat rep : List Char) :
    ∀ fuel s, s.length ≤ fuel →
      replaceAllGo pat rep fuel s = replaceAllGo pat rep s.length s := by
  intro fuel
  induction fuel using Nat.strong_induction_on with
  | _ fuel ih =>
    intro s hs
    cases fuel with
    | zero =>
      cases s with
      | nil => rfl
      | cons c cs => simp at hs
    | succ f =>
      cases s with
      | nil => rfl
      | cons c cs =>
        have hcs : cs.length ≤ f := by
          simp only [List.length_cons] at hs
          omega
        simp only [List.length_cons]
        simp only [replaceAllGo]
        by_cases hp : pat.isPrefixOf (c :: cs) = true
        · simp only [hp, if_true]
          have hd : (cs.drop (pat.length - 1)).length ≤ cs.length := by
            simp [List.length_drop]
          rw [ih f (by omega) _ (le_trans hd hcs),
            ih cs.length (by omega) _ hd]
        · rw [if_neg hp, if_neg hp, ih f (by omega) cs hcs]

theorem replaceAllGo_clean (pat rep : List Char) :
    ∀ (A s : List Char) (fuel : Nat), noMatchIn pat A s = true →
      A.length + s.length ≤ fuel →
      replaceAllGo pat rep fuel (A ++ s) = A ++ replaceAllGo pat rep (fuel - A.length) s := by
  intro A
  induction A with
  | nil => intro s fuel _ _; simp
  | cons a as ihA =>
    intro s fuel hclean hfuel
    cases fuel with
    | zero => simp at hfuel
    | succ f =>
      rw [noMatchIn, Bool.and_eq_true] at hclean
      have hnp : pat.isPrefixOf (a :: (as ++ s)) = false := by
        have := hclean.1
        simpa using this
      simp only [List.cons_append, replaceAllGo]
      rw [if_neg (by simp [hnp])]
      simp only [List.append_eq]
      rw [ihA s f hclean.2 (by simp only [List.length_cons] at hfuel; omega)]
      simp only [List.length_cons]
      have hf : f + 1 - (as.length + 1) = f - as.length := by omega
      rw [hf]

theorem replaceAllGo_noOccur (pat rep : List Char) :
    ∀ fuel s, s.length ≤ fuel → noOccur pat s = true →
      replaceAllGo pat rep fuel s = s := by
  intro fuel
  induction fuel with
  | zero => intro s hs _; rfl
  | succ f ih =>
    intro s hs hno
    cases s with
    | nil => rfl
    | cons c cs =>
      rw [noOccur, Bool.and_eq_true] at hno
      have hnp : pat.isPrefixOf (c :: cs) = false := by
        have := hno.1
        simpa using this
      rw [replaceAllGo, if_neg (by simp [hnp])]
      rw [ih cs (by simp only [List.length_cons] at hs; omega) hno.2]

/-- A global string replace leaves a pattern-free text unchanged. -/
theorem replaceAllStr_noOccur (pat rep s : List Char) (h : noOccur pat s = true) :
    replaceAllStr pat rep s = s :=
  replaceAllGo_noOccur pat rep s.length s (le_refl _) h

/-- A global string replace across the leftmost occurrence: the clean
prefix is copied, the occurrence is substituted, and replacement continues
in the remainder. -/
theorem replaceAllStr_splice (pat rep : List Char) (hpat : pat ≠ []) (A B : List Char)
    (hclean : noMatchIn pat A (pat ++ B) = true) :
    replaceAllStr pat rep (A ++ (pat ++ B)) = A ++ rep ++ replaceAllStr pat rep B := by
  rw [replaceAllStr,
    replaceAllGo_clean pat rep A (pat ++ B) _ hclean (by simp [List.length_append])]
  have hlen : (A ++ (pat ++ B)).length - A.length = pat.length + B.length := by
    simp only [List.length_append]
    omega
  rw [hlen]
  cases pat with
  | nil => exact absurd rfl hpat
  | cons q qt =>
    simp only [List.cons_append, List.length_cons]
    have hf : qt.length + 1 + B.length = (qt.length + B.length) + 1 := by omega
    rw [hf, replaceAllGo]
    have hisp : (q :: qt).isPrefixOf (q :: (qt ++ B)) = true :=
      isPrefixOf_self_append (q :: qt) B
    rw [if_pos hisp]
    have hdrop : (qt ++ B).drop ((q :: qt).length - 1) = B := by
      simp only [List.length_cons, Nat.add_sub_cancel]
      exact List.drop_left qt B
    rw [hdrop, replaceAllGo_fuelIrrel (q :: qt) rep (qt.length + B.length) B (by omega)]
    rw [replaceAllStr]
    simp [List.append_assoc]

theorem replaceFirstGo_clean (pat rep : List Char) :
    ∀ (A s : List Char) (fuel : Nat), noMatchIn pat A s = true →
      A.length + s.length ≤ fuel →
      replaceFirstGo pat rep fuel (A ++ s) = A ++ replaceFirstGo pat rep (fuel - A.length) s := by
  intro A
  induction A with
  | nil => intro s fuel _ _; simp
  | cons a as ihA =>
    intro s fuel hclean hfuel
    cases fuel with
    | zero => simp at hfuel
    | succ f =>
      rw [noMatchIn, Bool.and_eq_true] at hclean
      have hnp : pat.isPrefixOf (a :: (as ++ s)) = false := by
        have := hclean.1
        simpa using this
      simp only [List.cons_append, replaceFirstGo]
      rw [if_neg (by simp [hnp])]
      simp only [List.append_eq]
      rw [ihA s f hclean.2 (by simp only [List.length_cons] at hfuel; omega)]
      simp only [List.length_cons]
      have hf : f + 1 - (as.length + 1) = f - as.length := by omega
      rw [hf]

theorem replaceFirstGo_noOccur (pat rep : List Char) :
    ∀ fuel s, s.length ≤ fuel → noOccur pat s = true →
      replaceFirstGo pat rep fuel s = s := by
  intro fuel
  induction fuel with
  | zero => intro s hs _; rfl
  | succ f ih =>
    intro s hs hno
    cases s with
    | nil => rfl
    | cons c cs =>
      rw [noOccur, Bool.and_eq_true] at hno
      have hnp : pat.isPrefixOf (c :: cs) = false := by
        have := hno.1
        simpa using this
      rw [replaceFirstGo, if_neg (by simp [hnp])]
      rw [ih cs (by simp only [List.length_cons] at hs; omega) hno.2]

/-- A string-pattern replace leaves a pattern-free text unchanged. -/
theorem replaceFirstStr_noOccur (pat rep s : List Char) (h : noOccur pat s = true) :
    replaceFirstStr pat rep s = s :=
  replaceFirstGo_noOccur pat rep s.length s (le_refl _) h

/-- A string-pattern replace substitutes exactly the leftmost occurrence
and copies the remainder verbatim — later occurrences survive. -/
theorem replaceFirstStr_splice (pat rep : List Char) (hpat : pat ≠ []) (A B : List Char)
    (hclean : noMatchIn pat A (pat ++ B) = true) :
    replaceFirstStr pat rep (A ++ (pat ++ B)) = A ++ rep ++ B := by
  rw [replaceFirstStr,
    replaceFirstGo_clean pat rep A (pat ++ B) _ hclean (by simp [List.length_append])]
  have hlen : (A ++ (pat ++ B)).length - A.length = pat.length + B.length := by
    simp only [List.length_append]
    omega
  rw [hlen]
  cases pat with
  | nil => exact absurd rfl hpat
  | cons q qt =>
    simp only [List.cons_append, List.length_cons]
    have hf : qt.length + 1 + B.length = (qt.length + B.length) + 1 := by omega
    rw [hf, replaceFirstGo]
    have hisp : (q :: qt).isPrefixOf (q :: (qt ++ B)) = true :=
      isPrefixOf_self_append (q :: qt) B
    rw [if_pos hisp]
    have hdrop : (qt ++ B).drop ((q :: qt).length - 1) = B := by
      simp only [List.length_cons, Nat.add_sub_cancel]
      exact List.drop_left qt B
    rw [hdrop]
    simp [List.append_assoc]

/-! ## Claim theorems -/

/-- C1: for every retry configuration with `maxRetries = r`, if the signal
is never aborted and every transport attempt fails with a non-abort error,
then `executeWithRetry` performs exactly `r + 1` transport attempts, with a
`retryInterval` wait between consecutive attempts, and surfaces the error
of the last attempt. -/
theorem claim_C1_retry_exhaustion (cfg : RetryConfig) (sigPre sigPost : Nat → Bool)
    (fn : Nat → AttemptOutcome α) (e : Nat → JsError)
    (hpre : ∀ i, sigPre i = false) (hpost : ∀ i, sigPost i = false)
    (hfn : ∀ i, fn i = .err (e i)) (hname : ∀ i, (e i).name ≠ "AbortError") :
    (executeWithRetry cfg sigPre sigPost fn).1 =
        preTraceFrom cfg.retryInterval 0 cfg.maxRetries ++ [.attemptEv cfg.maxRetries] ∧
    countAttempts (executeWithRetry cfg sigPre sigPost fn).1 = cfg.maxRetries + 1 ∧
    (executeWithRetry cfg sigPre sigPost fn).2 = .error (e cfg.maxRetries) := by
  have h := executeWithRetryGo_allFail cfg sigPre sigPost fn e hpre hpost hfn hname
    (cfg.maxRetries + 1) 0 none (by omega) (by omega)
  rw [executeWithRetry, h]
  refine ⟨by simp, ?_, rfl⟩
  rw [countAttempts_append, countAttempts_preTraceFrom]
  rfl

/-- Witness for C1 at `maxRetries = 2`, `retryInterval = 5`, every attempt
failing with a network-style error. -/
theorem claim_C1_retry_exhaustion_witness :
    (executeWithRetry (α := Unit) ⟨2, 5⟩ (fun _ => false) (fun _ => false)
        (fun _ => .err ⟨"TypeError", "failed to fetch"⟩)).1 =
      preTraceFrom 5 0 2 ++ [.attemptEv 2] ∧
    countAttempts (executeWithRetry (α := Unit) ⟨2, 5⟩ (fun _ => false) (fun _ => false)
        (fun _ => .err ⟨"TypeError", "failed to fetch"⟩)).1 = 3 ∧
    (executeWithRetry (α := Unit) ⟨2, 5⟩ (fun _ => false) (fun _ => false)
        (fun _ => .err ⟨"TypeError", "failed to fetch"⟩)).2 =
      .error ⟨"TypeError", "failed to fetch"⟩ :=
  claim_C1_retry_exhaustion ⟨2, 5⟩ _ _ _ (fun _ => ⟨"TypeError", "failed to fetch"⟩)
    (fun _ => rfl) (fun _ => rfl) (fun _ => rfl)
    (fun _ => by show ("TypeError" : String) ≠ "AbortError"; decide)

/-- C6: if attempt `a` of `executeWithRetry` fails because the request was
cancelled — the thrown error carries the `AbortError` name, or the signal
is observed aborted in the catch block — the error surfaces immediately:
the trace ends with attempt `a` (no retry wait after it), exactly `a + 1`
attempts happen, and the error is the cancellation failure itself. -/
theorem claim_C6_cancellation_final (cfg : RetryConfig) (sigPre sigPost : Nat → Bool)
    (fn : Nat → AttemptOutcome α) (e : Nat → JsError) (a : Nat) (eAbort : JsError)
    (hpre : ∀ i, i ≤ a → sigPre i = false)
    (hpost : ∀ i, i < a → sigPost i = false)
    (hfn : ∀ i, i < a → fn i = .err (e i))
    (hname : ∀ i, i < a → (e i).name ≠ "AbortError")
    (hfa : fn a = .err eAbort)
    (habort : eAbort.name = "AbortError" ∨ sigPost a = true)
    (hle : a ≤ cfg.maxRetries) :
    (executeWithRetry cfg sigPre sigPost fn).1 =
        preTraceFrom cfg.retryInterval 0 a ++ [.attemptEv a] ∧
    countAttempts (executeWithRetry cfg sigPre sigPost fn).1 = a + 1 ∧
    (executeWithRetry cfg sigPre sigPost fn).2 = .error eAbort := by
  have h := executeWithRetryGo_abortAt cfg sigPre sigPost fn e a eAbort hpre hpost hfn hname
    hfa habort hle (cfg.maxRetries + 1) 0 none (by omega) (by omega)
  rw [executeWithRetry, h]
  refine ⟨by simp, ?_, rfl⟩
  rw [countAttempts_append, countAttempts_preTraceFrom]
  rfl

/-- Witness for C6: one ordinary failure, then an abort-named failure on
attempt 1 with `maxRetries = 3` — two attempts total, no wait after the
second, the abort error surfaced. -/
theorem claim_C6_cancellation_final_witness :
    (executeWithRetry (α := Unit) ⟨3, 9⟩ (fun _ => false) (fun _ => false)
        (fun i => if i = 0 then .err ⟨"TypeError", "failed to fetch"⟩
                  else .err ⟨"AbortError", "aborted"⟩)).1 =
      preTraceFrom 9 0 1 ++ [.attemptEv 1] ∧
    countAttempts (executeWithRetry (α := Unit) ⟨3, 9⟩ (fun _ => false) (fun _ => false)
        (fun i => if i = 0 then .err ⟨"TypeError", "failed to fetch"⟩
                  else .err ⟨"AbortError", "aborted"⟩)).1 = 1 + 1 ∧
    (executeWithRetry (α := Unit) ⟨3, 9⟩ (fun _ => false) (fun _ => false)
        (fun i => if i = 0 then .err ⟨"TypeError", "failed to fetch"⟩
                  else .err ⟨"AbortError", "aborted"⟩)).2 =
      .error ⟨"AbortError", "aborted"⟩ :=
  claim_C6_cancellation_final ⟨3, 9⟩ _ _ _ (fun _ => ⟨"TypeError", "failed to fetch"⟩) 1
    ⟨"AbortError", "aborted"⟩
    (fun _ _ => rfl) (fun _ _ => rfl)
    (fun i hi => by interval_cases i; rfl)
    (fun i hi => by
      interval_cases i
      show ("TypeError" : String) ≠ "AbortError"
      decide)
    rfl (Or.inl rfl) (by decide)

/-- C9: the spec declares a per-request-deadline `Timeout` retryable up to
the policy, but the code aborts the fetch through `fetchWithTimeout`'s own
`AbortController` when the deadline fires, so the attempt rejects with an
`AbortError`-named error which `executeWithRetry` treats as terminal: with
the default policy (`maxRetries = 3`) a permanently timing-out call makes
exactly one transport attempt and surfaces the abort-named error with no
retry. -/
theorem claim_C9_timeout_not_retried :
    executeWithRetry (α := Unit) DEFAULT_RETRY_CONFIG (fun _ => false) (fun _ => false)
        (fun _ => fetchWithTimeout true (.ok ())) =
      ([.attemptEv 0], .error timeoutAbortError) ∧
    countAttempts (executeWithRetry (α := Unit) DEFAULT_RETRY_CONFIG (fun _ => false)
        (fun _ => false) (fun _ => fetchWithTimeout true (.ok ()))).1 = 1 ∧
    DEFAULT_RETRY_CONFIG.maxRetries + 1 = 4 := by
  refine ⟨rfl, rfl, rfl⟩

/-- C5: a never-cancelled `translateBatch` returns one result per input
unit in input order — the empty string for an empty or whitespace-only
unit, the original text for a unit whose translation throws, the
translated text otherwise; `this.translate` is invoked exactly for the
non-blank units; and `onProgress(completed, total, result)` fires once per
unit with `completed = 1, 2, …, n` in unit order. -/
theorem claim_C5_batch_results (tr : Nat → List Char → UnitOutcome) (aborted : Nat → Bool)
    (texts : List (List Char)) (h : ∀ i, aborted i = false) :
    translateBatch tr aborted texts =
      ⟨some (batchSpecResults tr 0 texts), batchSpecProgress tr texts.length 0 texts,
       batchSpecCalls 0 texts⟩ ∧
    (batchSpecResults tr 0 texts).length = texts.length ∧
    (∀ i, (batchSpecResults tr 0 texts)[i]? = texts[i]?.map (fun t => unitResult tr i t)) ∧
    (batchSpecProgress tr texts.length 0 texts).map (fun p => p.1) =
      List.range' 1 texts.length := by
  refine ⟨translateBatchGo_noAbort tr aborted texts.length h texts 0,
    batchSpecResults_length tr texts 0, ?_, ?_⟩
  · intro i
    simpa using batchSpecResults_getElem? tr texts 0 i
  · simpa using batchSpecProgress_completed tr texts.length texts 0

/-- Witness for C5 on the spec's example batch `["", "hello", "<fails>"]`
with a translator that throws on `"<fails>"`. -/
theorem claim_C5_batch_results_witness :
    translateBatch
        (fun _ t => if t = "<fails>".data then UnitOutcome.err else .ok ('T' :: t))
        (fun _ => false) [[], "hello".data, "<fails>".data] =
      ⟨some [[], 'T' :: "hello".data, "<fails>".data],
       [(1, 3, []), (2, 3, 'T' :: "hello".data), (3, 3, "<fails>".data)], [1, 2]⟩ :=
  ((claim_C5_batch_results
      (fun _ t => if t = "<fails>".data then UnitOutcome.err else .ok ('T' :: t))
      (fun _ => false) [[], "hello".data, "<fails>".data] (fun _ => rfl)).1).trans (by rfl)

/-- C7: if the cancellation signal becomes set before unit `k` of a batch
(and was unset for all earlier units), `translateBatch` raises the
cancellation error instead of returning results, after having emitted
exactly the `k` progress events — carrying the per-unit results — of the
units that resolved before the cancellation. -/
theorem claim_C7_batch_cancellation (tr : Nat → List Char → UnitOutcome) (aborted : Nat → Bool)
    (texts : List (List Char)) (k : Nat) (hk : k < texts.length)
    (hfree : ∀ j, j < k → aborted j = false) (habort : aborted k = true) :
    translateBatch tr aborted texts =
      ⟨none, batchSpecProgress tr texts.length 0 (texts.take k),
       batchSpecCalls 0 (texts.take k)⟩ ∧
    (batchSpecProgress tr texts.length 0 (texts.take k)).length = k ∧
    (batchSpecProgress tr texts.length 0 (texts.take k)).map (fun p => p.1) =
      List.range' 1 k := by
  have hmain := translateBatchGo_abortAt tr aborted texts.length k texts 0
    (fun j _ hj => hfree j (by omega)) (by simpa using habort) hk
  have hlen : (texts.take k).length = k := by
    simp [List.length_take]
    omega
  refine ⟨hmain, ?_, ?_⟩
  · rw [batchSpecProgress_length, hlen]
  · have hc := batchSpecProgress_completed tr texts.length (texts.take k) 0
    rw [hlen] at hc
    simpa using hc

/-- C2: during a streaming call with input text of length `L`, the
accumulated output never exceeds `max(10 * L, 1000)` — at every `onChunk`
event and at the end — and when the stream stops because a chunk would
exceed the bound, the accumulated text is truncated to exactly the bound
and the last `onChunk` event carries exactly that truncated text. -/
theorem claim_C2_stream_length_invariant (text : List Char) (timedOut : Nat → Bool)
    (contents : List (List Char)) :
    (∀ ev ∈ (translateStreaming text timedOut contents).events,
      ev.2.length ≤ maxOutputLengthFor text) ∧
    (translateStreaming text timedOut contents).final.length ≤ maxOutputLengthFor text ∧
    ((translateStreaming text timedOut contents).stop = some .maxLength →
      (translateStreaming text timedOut contents).final.length = maxOutputLengthFor text ∧
      ∃ ev, (translateStreaming text timedOut contents).events.getLast? = some ev ∧
        ev.2 = (translateStreaming text timedOut contents).final) := by
  have h0 : (⟨[], []⟩ : StreamState).accumulated.length ≤ maxOutputLengthFor text := by
    simp
  refine ⟨runStream_events_bound (maxOutputLengthFor text) timedOut contents 0 ⟨[], []⟩ h0,
    (runStream_final_bound (maxOutputLengthFor text) timedOut contents 0 ⟨[], []⟩ h0).1, ?_⟩
  intro hstop
  have hfin := (runStream_final_bound (maxOutputLengthFor text) timedOut contents 0 ⟨[], []⟩ h0).2
    hstop
  refine ⟨hfin, ?_⟩
  have hpos : 0 < maxOutputLengthFor text := by
    have : (1000 : Nat) ≤ maxOutputLengthFor text := le_max_right _ _
    omega
  have hne : (translateStreaming text timedOut contents).events ≠ [] := by
    intro hnil
    have hempty := runStream_events_nil (maxOutputLengthFor text) timedOut contents 0 ⟨[], []⟩ hnil
    rw [hempty] at hfin
    simp at hfin
    omega
  obtain ⟨ev, hev⟩ := Option.isSome_iff_exists.mp (List.getLast?_isSome.mpr hne)
  exact ⟨ev, hev, runStream_getLast (maxOutputLengthFor text) timedOut contents 0 ⟨[], []⟩ ev hev⟩

set_option maxRecDepth 40000 in
/-- Witness for C2: empty input (bound 1000) fed two 600-character chunks —
the stream stops at `maxLength` with the accumulated text of exactly 1000
characters. -/
theorem claim_C2_stream_length_invariant_witness :
    (translateStreaming [] (fun _ => false)
        [List.replicate 600 'x', List.replicate 600 'x']).stop = some .maxLength ∧
    (translateStreaming [] (fun _ => false)
        [List.replicate 600 'x', List.replicate 600 'x']).final.length =
      maxOutputLengthFor [] :=
  ⟨rfl, (((claim_C2_stream_length_invariant [] (fun _ => false)
      [List.replicate 600 'x', List.replicate 600 'x']).2.2) rfl).1⟩

/-- C3 counterexample: five identical non-empty chunks are all delivered
and the stream completes without any repetition stop — the detector does
not signal on the 5th identical chunk. -/
theorem claim_C3_counterexample :
    (translateStreaming "hello".data (fun _ => false)
        (List.replicate 5 ['a', 'b'])).stop = none ∧
    (translateStreaming "hello".data (fun _ => false)
        (List.replicate 5 ['a', 'b'])).events.map (fun ev => ev.1) =
      List.replicate 5 ['a', 'b'] ∧
    (['a', 'b'] : List Char) ≠ [] :=
  ⟨rfl, rfl, by decide⟩

/-- C3 (amended): the repetition detector signals when the incoming
non-empty chunk equals all of the most recent 5 *previously delivered*
chunks, i.e. the stream stops on the 6th consecutive identical chunk; the
5 already-delivered copies remain accumulated as the stream's final
text. -/
theorem claim_C3_repetition_sixth_chunk :
    (∀ (c : List Char) (prior : List (List Char)) (acc : List Char),
        c ≠ [] → 5 ≤ prior.length →
        (prior.drop (prior.length - 5)).all (fun ch => ch == c) = true →
        detectRepetitionLoop c prior acc = true) ∧
    (translateStreaming "hello".data (fun _ => false) (List.replicate 6 ['a', 'b'])).stop =
      some .repetition ∧
    (translateStreaming "hello".data (fun _ => false) (List.replicate 6 ['a', 'b'])).events.map
        (fun ev => ev.1) = List.replicate 5 ['a', 'b'] ∧
    (translateStreaming "hello".data (fun _ => false) (List.replicate 6 ['a', 'b'])).final =
      "ababababab".data := by
  refine ⟨?_, rfl, rfl, rfl⟩
  intro c prior acc hc hlen hall
  have hpos : 0 < c.length := List.length_pos.mpr hc
  simp [detectRepetitionLoop, STREAMING_SAFETY_LIMITS, hlen, hall, hpos]

/-- Witness for the amended C3 detector property at a concrete input. -/
theorem claim_C3_repetition_sixth_chunk_witness :
    detectRepetitionLoop ['a'] (List.replicate 5 ['a']) [] = true :=
  claim_C3_repetition_sixth_chunk.1 ['a'] (List.replicate 5 ['a']) []
    (by decide) (by decide) (by decide)

/-- Witness for C7: a four-unit batch whose signal becomes aborted at unit
2 — the run throws with exactly the first two progress events emitted. -/
theorem claim_C7_batch_cancellation_witness :
    translateBatch (fun _ t => .ok ('T' :: t)) (fun i => 2 ≤ i)
        ["a".data, "b".data, "c".data, "d".data] =
      ⟨none, [(1, 4, 'T' :: "a".data), (2, 4, 'T' :: "b".data)], [0, 1]⟩ :=
  ((claim_C7_batch_cancellation (fun _ t => .ok ('T' :: t)) (fun i => 2 ≤ i)
      ["a".data, "b".data, "c".data, "d".data] 2 (by decide)
      (fun j hj => by interval_cases j <;> rfl) rfl).1).trans (by rfl)

/-- No position of `s` starts a match of the matcher `m` (the global
removal scanners only try to match at non-empty suffixes). -/
def noMatchAnywhere (m : Matcher) : List Char → Bool
  | [] => true
  | c :: cs => (m (c :: cs)).isNone && noMatchAnywhere m cs

/-- `s` contains no run of three consecutive `ch` characters. -/
def noRunOf3 (ch : Char) : List Char → Bool
  | a :: b :: c :: rest => !(a = ch && b = ch && c = ch) && noRunOf3 ch (b :: c :: rest)
  | _ => true

/-- `s` contains no run of two consecutive `ch` characters. -/
def noRunOf2 (ch : Char) : List Char → Bool
  | a :: b :: rest => !(a = ch && b = ch) && noRunOf2 ch (b :: rest)
  | _ => true

/-- Sanitized normal form: no template-pattern match anywhere, no
incomplete trailing token, no newline or space runs to collapse, already
trimmed, not wrapped in quotes, and no boilerplate lead-in at the start.
`sanitizeTranslationResult` fixes exactly such texts. -/
def sanitizeNormal (s : List Char) : Bool :=
  chatTemplatePatterns.all (fun m => noMatchAnywhere m s) &&
  incompleteOutputPatterns.all
    (fun p => !(p.length ≤ s.length && eqCI (s.drop (s.length - p.length)) p)) &&
  noRunOf3 '\n' s && noRunOf2 ' ' s && (trimList s == s) &&
  !(isWrappedBy '"' '"' (trimList s) || isWrappedBy squote squote (trimList s) ||
    isWrappedBy '「' '」' (trimList s) || isWrappedBy '『' '』' (trimList s)) &&
  llmPrefixPatterns.all (fun m => (m s).isNone)

theorem removeAllGo_noMatch (m : Matcher) :
    ∀ fuel s, s.length ≤ fuel → noMatchAnywhere m s = true →
      removeAllGo m fuel s = s := by
  intro fuel
  induction fuel with
  | zero => intro s _ _; rfl
  | succ f ih =>
    intro s hs hno
    cases s with
    | nil => rfl
    | cons c cs =>
      rw [noMatchAnywhere, Bool.and_eq_true] at hno
      have hm : m (c :: cs) = none := Option.isNone_iff_eq_none.mp hno.1
      rw [removeAllGo, hm]
      rw [ih cs (by simp only [List.length_cons] at hs; omega) hno.2]

theorem removeAll_noMatch (m : Matcher) (s : List Char) (h : noMatchAnywhere m s = true) :
    removeAll m s = s :=
  removeAllGo_noMatch m s.length s (le_refl _) h

theorem foldl_removeAll_id (s : List Char) :
    ∀ ms : List Matcher, (∀ m ∈ ms, noMatchAnywhere m s = true) →
      ms.foldl (fun acc m => removeAll m acc) s = s := by
  intro ms
  induction ms with
  | nil => intro _; rfl
  | cons m rest ih =>
    intro h
    rw [List.foldl_cons, removeAll_noMatch m s (h m (by simp))]
    exact ih (fun m' hm' => h m' (by simp [hm']))

theorem removeSuffixCI_id (p s : List Char)
    (h : (p.length ≤ s.length && eqCI (s.drop (s.length - p.length)) p) = false) :
    removeSuffixCI p s = s := by
  rw [removeSuffixCI, if_neg (by simp [h])]

theorem foldl_removeSuffixCI_id (s : List Char) :
    ∀ ps : List (List Char),
      (∀ p ∈ ps, (p.length ≤ s.length && eqCI (s.drop (s.length - p.length)) p) = false) →
      ps.foldl (fun acc p => removeSuffixCI p acc) s = s := by
  intro ps
  induction ps with
  | nil => intro _; rfl
  | cons p rest ih =>
    intro h
    rw [List.foldl_cons, removeSuffixCI_id p s (h p (by simp))]
    exact ih (fun p' hp' => h p' (by simp [hp']))

theorem noRunOf3_tail (ch : Char) (c : Char) (cs : List Char)
    (h : noRunOf3 ch (c :: cs) = true) : noRunOf3 ch cs = true := by
  cases cs with
  | nil => rfl
  | cons b rest =>
    cases rest with
    | nil => rfl
    | cons d rest2 =>
      rw [noRunOf3, Bool.and_eq_true] at h
      exact h.2

theorem noRunOf2_tail (ch : Char) (c : Char) (cs : List Char)
    (h : noRunOf2 ch (c :: cs) = true) : noRunOf2 ch cs = true := by
  cases cs with
  | nil => rfl
  | cons b rest =>
    rw [noRunOf2, Bool.and_eq_true] at h
    exact h.2

theorem leadCount_ge_one (ch : Char) (cs : List Char) (h : 1 ≤ leadCount ch cs) :
    ∃ rest, cs = ch :: rest := by
  cases cs with
  | nil => simp [leadCount] at h
  | cons a rest =>
    rw [leadCount] at h
    by_cases ha : a = ch
    · exact ⟨rest, by rw [ha]⟩
    · rw [if_neg ha] at h
      omega

theorem leadCount_ge_two (ch : Char) (cs : List Char) (h : 2 ≤ leadCount ch cs) :
    ∃ rest, cs = ch :: ch :: rest := by
  obtain ⟨r1, hr1⟩ := leadCount_ge_one ch cs (by omega)
  subst hr1
  rw [leadCount, if_pos rfl] at h
  obtain ⟨r2, hr2⟩ := leadCount_ge_one ch r1 (by omega)
  exact ⟨r2, by rw [hr2]⟩

theorem collapseNewlinesGo_id :
    ∀ fuel s, s.length ≤ fuel → noRunOf3 '\n' s = true →
      collapseNewlinesGo fuel s = s := by
  intro fuel
  induction fuel with
  | zero => intro s _ _; rfl
  | succ f ih =>
    intro s hs hno
    cases s with
    | nil => rfl
    | cons c cs =>
      have hcs : cs.length ≤ f := by simp only [List.length_cons] at hs; omega
      rw [collapseNewlinesGo]
      by_cases hc : c = '\n'
      · rw [if_pos hc]
        have hlt : leadCount '\n' cs + 1 < 3 := by
          by_contra hge
          obtain ⟨rest, hrest⟩ := leadCount_ge_two '\n' cs (by omega)
          subst hrest hc
          rw [noRunOf3] at hno
          simp at hno
        rw [if_neg (by omega)]
        rw [ih cs hcs (noRunOf3_tail '\n' c cs hno)]
      · rw [if_neg hc, ih cs hcs (noRunOf3_tail '\n' c cs hno)]

theorem collapseNewlines_id (s : List Char) (h : noRunOf3 '\n' s = true) :
    collapseNewlines s = s :=
  collapseNewlinesGo_id s.length s (le_refl _) h

theorem collapseSpacesGo_id :
    ∀ fuel s, s.length ≤ fuel → noRunOf2 ' ' s = true →
      collapseSpacesGo fuel s = s := by
  intro fuel
  induction fuel with
  | zero => intro s _ _; rfl
  | succ f ih =>
    intro s hs hno
    cases s with
    | nil => rfl
    | cons c cs =>
      have hcs : cs.length ≤ f := by simp only [List.length_cons] at hs; omega
      rw [collapseSpacesGo]
      by_cases hc : c = ' '
      · rw [if_pos hc]
        have hlt : leadCount ' ' cs + 1 < 2 := by
          by_contra hge
          obtain ⟨rest, hrest⟩ := leadCount_ge_one ' ' cs (by omega)
          subst hrest hc
          rw [noRunOf2] at hno
          simp at hno
        rw [if_neg (by omega)]
        rw [ih cs hcs (noRunOf2_tail ' ' c cs hno)]
      · rw [if_neg hc, ih cs hcs (noRunOf2_tail ' ' c cs hno)]

theorem collapseSpaces_id (s : List Char) (h : noRunOf2 ' ' s = true) :
    collapseSpaces s = s :=
  collapseSpacesGo_id s.length s (le_refl _) h

theorem stripAtStart_id (m : Matcher) (s : List Char) (h : (m s).isNone = true) :
    stripAtStart m s = s := by
  rw [stripAtStart, Option.isNone_iff_eq_none.mp h]

theorem foldl_stripAtStart_id (s : List Char) :
    ∀ ms : List Matcher, (∀ m ∈ ms, (m s).isNone = true) →
      ms.foldl (fun acc m => stripAtStart m acc) s = s := by
  intro ms
  induction ms with
  | nil => intro _; rfl
  | cons m rest ih =>
    intro h
    rw [List.foldl_cons, stripAtStart_id m s (h m (by simp))]
    exact ih (fun m' hm' => h m' (by simp [hm']))

set_option maxHeartbeats 2000000 in
/-- A text in sanitized normal form is a fixed point of the whole
sanitization pipeline. -/
theorem sanitizeTranslationResult_fixed (s : List Char) (h : sanitizeNormal s = true) :
    sanitizeTranslationResult s = s := by
  rw [sanitizeNormal] at h
  simp only [Bool.and_eq_true] at h
  obtain ⟨⟨⟨⟨⟨⟨hpat, hinc⟩, hn3⟩, hn2⟩, htrim⟩, hwrap⟩, hpre⟩ := h
  have htrimEq : trimList s = s := by
    have hb := htrim
    rw [beq_iff_eq] at hb
    exact hb
  have h1 : removeChatTemplateTokens s = s := by
    rw [removeChatTemplateTokens]
    rw [foldl_removeAll_id s chatTemplatePatterns (by
      intro m hm
      exact List.all_eq_true.mp hpat m hm)]
    rw [foldl_removeSuffixCI_id s incompleteOutputPatterns (by
      intro p hp
      have hb := List.all_eq_true.mp hinc p hp
      rw [Bool.not_eq_true'] at hb
      exact hb)]
    rw [collapseNewlines_id s hn3, collapseSpaces_id s hn2, htrimEq]
  have h2 : removeWrappingQuotes s = s := by
    have hw : (isWrappedBy '"' '"' (trimList s) || isWrappedBy squote squote (trimList s) ||
        isWrappedBy '「' '」' (trimList s) || isWrappedBy '『' '』' (trimList s)) = false := by
      rw [Bool.not_eq_true'] at hwrap
      exact hwrap
    simp only [removeWrappingQuotes]
    rw [if_neg (by simp [hw])]
  have h3 : removeLLMPrefixes s = s := by
    rw [removeLLMPrefixes]
    rw [foldl_stripAtStart_id s llmPrefixPatterns (by
      intro m hm
      exact List.all_eq_true.mp hpre m hm)]
    exact htrimEq
  rw [sanitizeTranslationResult, h1, h2, h3]

/-- C10: `buildPrompt` substitutes every occurrence of the placeholders in
the user-prompt template (global regex replace) — shown here for a
template with two `{{target_language}}` occurrences, both replaced — while
the system message uses a string-pattern `replace`, so only the first
`{{target_language}}` occurrence is substituted and every later occurrence
remains verbatim in the outbound system content. -/
theorem claim_C10_prompt_substitution
    (A B C A2 B2 C2 src tgt inp : List Char)
    (hU1 : noOccur sourceLanguagePlaceholder
      (A ++ (targetLanguagePlaceholder ++ (B ++ (targetLanguagePlaceholder ++ C)))) = true)
    (hU2 : noMatchIn targetLanguagePlaceholder A
      (targetLanguagePlaceholder ++ (B ++ (targetLanguagePlaceholder ++ C))) = true)
    (hU3 : noMatchIn targetLanguagePlaceholder B (targetLanguagePlaceholder ++ C) = true)
    (hU4 : noOccur targetLanguagePlaceholder C = true)
    (hU5 : noOccur inputTextPlaceholder (A ++ (tgt ++ (B ++ (tgt ++ C)))) = true)
    (hS1 : noMatchIn targetLanguagePlaceholder A2
      (targetLanguagePlaceholder ++ (B2 ++ (targetLanguagePlaceholder ++ C2))) = true) :
    buildPrompt (A ++ (targetLanguagePlaceholder ++ (B ++ (targetLanguagePlaceholder ++ C))))
        inp src tgt = A ++ (tgt ++ (B ++ (tgt ++ C))) ∧
    systemMessageContent
        (A2 ++ (targetLanguagePlaceholder ++ (B2 ++ (targetLanguagePlaceholder ++ C2)))) tgt =
      A2 ++ tgt ++ (B2 ++ (targetLanguagePlaceholder ++ C2)) := by
  constructor
  · rw [buildPrompt]
    rw [replaceAllStr_noOccur sourceLanguagePlaceholder src _ hU1]
    rw [replaceAllStr_splice targetLanguagePlaceholder tgt (by decide) A
      (B ++ (targetLanguagePlaceholder ++ C)) hU2]
    rw [replaceAllStr_splice targetLanguagePlaceholder tgt (by decide) B C hU3]
    rw [replaceAllStr_noOccur targetLanguagePlaceholder tgt C hU4]
    simp only [List.append_assoc]
    rw [replaceAllStr_noOccur inputTextPlaceholder inp _ hU5]
  · rw [systemMessageContent]
    rw [replaceFirstStr_splice targetLanguagePlaceholder tgt (by decide) A2
      (B2 ++ (targetLanguagePlaceholder ++ C2)) hS1]

/-- Witness for C10 on concrete templates: the user template has both
target-language occurrences substituted; the system template keeps its
second `{{target_language}}` verbatim. -/
theorem claim_C10_prompt_substitution_witness :
    buildPrompt ("Translate into ".data ++ (targetLanguagePlaceholder ++
        (". Reply in ".data ++ (targetLanguagePlaceholder ++ " only.".data))))
        "hello".data "English".data "Japanese".data =
      "Translate into ".data ++ ("Japanese".data ++
        (". Reply in ".data ++ ("Japanese".data ++ " only.".data))) ∧
    systemMessageContent ("Sys ".data ++ (targetLanguagePlaceholder ++
        (" and ".data ++ (targetLanguagePlaceholder ++ " again.".data)))) "Japanese".data =
      "Sys ".data ++ "Japanese".data ++
        (" and ".data ++ (targetLanguagePlaceholder ++ " again.".data)) :=
  claim_C10_prompt_substitution
    "Translate into ".data ". Reply in ".data " only.".data
    "Sys ".data " and ".data " again.".data
    "English".data "Japanese".data "hello".data
    (by decide) (by decide) (by decide) (by decide) (by decide) (by decide)

/-- C4 counterexample: the sanitization pipeline is not idempotent — on
`'「abc」'` (a single-quoted text wrapping a CJK-bracket-quoted text) one
application strips the outer quotes and a second application strips the
newly exposed inner quotes. -/
theorem claim_C4_counterexample :
    sanitizeTranslationResult (squote :: ("「abc」".data ++ [squote])) = "「abc」".data ∧
    sanitizeTranslationResult (sanitizeTranslationResult
      (squote :: ("「abc」".data ++ [squote]))) = "abc".data ∧
    sanitizeTranslationResult (sanitizeTranslationResult
        (squote :: ("「abc」".data ++ [squote]))) ≠
      sanitizeTranslationResult (squote :: ("「abc」".data ++ [squote])) :=
  ⟨rfl, rfl, by decide⟩

/-- C4 (amended): `sanitizeTranslationResult` is idempotent on every input
whose first sanitization lands in sanitized normal form — no remaining
artifact-pattern occurrence, no incomplete trailing token, no wrapping
quote pair, no boilerplate lead-in, whitespace already collapsed and
trimmed.  (In general it is not idempotent: a second application can strip
a newly exposed quote layer or artifact, as the counterexample shows.) -/
theorem claim_C4_sanitize_conditional_idempotence (x : List Char)
    (h : sanitizeNormal (sanitizeTranslationResult x) = true) :
    sanitizeTranslationResult (sanitizeTranslationResult x) = sanitizeTranslationResult x :=
  sanitizeTranslationResult_fixed (sanitizeTranslationResult x) h

set_option maxRecDepth 40000 in
/-- Witness for the amended C4: sanitizing `"<|im_end|> hi"` yields `"hi"`,
which is in normal form, so a second application changes nothing. -/
theorem claim_C4_sanitize_conditional_idempotence_witness :
    sanitizeNormal (sanitizeTranslationResult "<|im_end|> hi".data) = true ∧
    sanitizeTranslationResult (sanitizeTranslationResult "<|im_end|> hi".data) =
      sanitizeTranslationResult "<|im_end|> hi".data :=
  ⟨by decide, claim_C4_sanitize_conditional_idempotence "<|im_end|> hi".data (by decide)⟩

/-- C8 counterexample: a streaming request that completes successfully with
accumulated output `"<|im_end|>"` (non-empty model output) sanitizes to the
empty string, so the success path records zero history entries even though
history recording is enabled — not exactly one. -/
theorem claim_C8_counterexample :
    handleTranslateTextHistoryCount true true true (fun t => t)
        (sanitizeAccumulatedResult "<|im_end|>".data) = 0 ∧
    sanitizeAccumulatedResult "<|im_end|>".data = [] :=
  ⟨rfl, rfl⟩

/-- C8 (amended): the success path of `handleTranslateText` records at most
one `HistoryEntry` per completed request, and exactly one for every
non-streaming success (when history is enabled); a streaming success
records exactly one entry iff history is enabled, the raw accumulated
result is non-empty, and its converted and sanitized form is non-empty —
otherwise it records none. -/
theorem claim_C8_history_single_entry (stream streamingEnabled historyEnabled : Bool)
    (convert : List Char → List Char) (raw : List Char) :
    handleTranslateTextHistoryCount stream streamingEnabled historyEnabled convert raw ≤ 1 ∧
    (historyEnabled = false →
      handleTranslateTextHistoryCount stream streamingEnabled historyEnabled convert raw = 0) ∧
    ((stream && streamingEnabled) = false →
      handleTranslateTextHistoryCount stream streamingEnabled historyEnabled convert raw =
        if historyEnabled then 1 else 0) ∧
    ((stream && streamingEnabled) = true →
      (handleTranslateTextHistoryCount stream streamingEnabled historyEnabled convert raw = 1 ↔
        historyEnabled = true ∧ raw ≠ [] ∧ sanitizeAccumulatedResult (convert raw) ≠ [])) := by
  have hchar : handleTranslateTextHistoryCount stream streamingEnabled historyEnabled convert raw =
      if (stream && streamingEnabled) = true then
        (if raw = [] then 0
         else if sanitizeAccumulatedResult (convert raw) = [] then 0
         else if historyEnabled = true then 1 else 0)
      else (if historyEnabled = true then 1 else 0) := by
    unfold handleTranslateTextHistoryCount
    by_cases hss : (stream && streamingEnabled) = true
    · rw [if_pos hss, if_pos hss]
      by_cases hraw : raw = []
      · rw [if_pos hraw, if_neg (by simp [hraw])]
      · rw [if_neg hraw, if_pos (by simp [List.length_eq_zero, hraw])]
        by_cases hres : sanitizeAccumulatedResult (convert raw) = []
        · rw [if_pos hres, if_neg (by simp [List.length_eq_zero, hres])]
        · rw [if_neg hres, if_pos (by simp [List.length_eq_zero, hres])]
    · rw [if_neg hss, if_neg hss]
  rw [hchar]
  refine ⟨?_, ?_, ?_, ?_⟩
  · split_ifs <;> omega
  · intro h
    split_ifs <;> simp_all
  · intro h
    rw [if_neg (by simp [h])]
  · intro h
    rw [if_pos h]
    split_ifs with h1 h2 h3 <;> simp_all

/-- Witness for the amended C8: a streaming success with a non-empty
sanitized result and history enabled records exactly one entry. -/
theorem claim_C8_history_single_entry_witness :
    handleTranslateTextHistoryCount true true true (fun t => t) "hi".data = 1 :=
  ((claim_C8_history_single_entry true true true (fun t => t) "hi".data).2.2.2 rfl).mpr
    ⟨rfl, by decide, by decide⟩

end LocalTranslateAI

